import Mathlib

/-!
Verification development for the CloudSpanner-backed Trillian tree storage
layer (storage/cloudspanner/tree_storage.go).  The Go code is shallowly
embedded: machine integers become `Int`/`Nat`, fallible calls return an
explicit outcome, the Spanner client becomes a `Backend` record of pure
read functions, and the mutable `treeTX` becomes explicit state passing.
A Go runtime panic (slice bound out of range) is represented by the
distinguished `Outcome.panic` constructor, kept apart from returned error
values.
-/

namespace CloudSpanner

/-- Error values of the storage layer, mirroring the package-level sentinel
errors and the `fmt.Errorf` sites of tree_storage.go. -/
inductive TSError where
  | notFound
  | notImplemented
  | transactionClosed
  | wrongTXType
  | treeNeedsInit
  | alignment (bits : Nat)
  | prefixMismatch (got : List Nat) (want : Option (List Nat))
  | revTooNew (got want : Int)
  | unknownTXType
  | backend (code : Nat)
deriving DecidableEq

/-- Result of an embedded operation: a returned value, a returned Go error
value, or a Go runtime panic (which no Go caller receives as an error). -/
inductive Outcome (α : Type) where
  | ok (a : α)
  | err (e : TSError)
  | panic
deriving DecidableEq

/-- True iff the operation returned a value (nil error, no panic). -/
def Outcome.isOk {α : Type} : Outcome α → Bool
  | .ok _ => true
  | _ => false

/-- storage.NodeID: a node path (bytes, modelled as `List Nat`) together
with the prefix length in bits. -/
structure NodeID where
  path : List Nat
  prefixLenBits : Nat
deriving DecidableEq

/-- storagepb.SubtreeProto, restricted to the fields tree_storage.go reads
or writes: the stored prefix (a Go `[]byte`, whose `nil` is distinguished
from the empty slice by `Option`) and the leaf-hash mapping that makes
distinct stored blobs distinguishable. -/
structure SubtreeProto where
  pfx : Option (List Nat)
  leaves : List (List Nat × List Nat)
deriving DecidableEq

/-- storage.Node, restricted to the fields SetMerkleNodes uses. -/
structure Node where
  nodeID : NodeID
  hash : List Nat
deriving DecidableEq

/-- spannerpb.TreeHead, with the signature / metadata blobs (decoded by an
external codec) omitted. -/
structure TreeHead where
  treeId : Int
  tsNanos : Int
  treeSize : Int
  rootHash : List Nat
  treeRevision : Int
deriving DecidableEq

/-- Go `bytes.Equal(got, want)` where `want` may be a nil slice:
nil compares equal to the empty slice. -/
def bytesMatch (got : List Nat) (want : Option (List Nat)) : Bool :=
  got == want.getD []

/-- A buffered Spanner mutation, as built by `spanner.Insert(subtreeTbl,
{TreeID, SubtreeID, Revision, Subtree}, ...)` in storeSubtrees. -/
structure Mutation where
  treeID : Int
  subtreeID : Option (List Nat)
  revision : Int
  subtree : SubtreeProto
deriving DecidableEq

/-- The Spanner backend visible to one transaction: the TreeHeads table
(per tree id) and the SubtreeData prefix read, returning the rows for
(treeID, subtreeID) across revisions in the order the iterator yields
them, or a read error. -/
structure Backend where
  heads : Int → List TreeHead
  read : Int → List Nat → Except TSError (List (Int × SubtreeProto))

/-- Modelled from the spec: the SubtreeData table's primary key (declared
in the database schema, which is not under src/) stores `Revision`
descending, so a prefix read yields the rows of one subtree key in
strictly descending revision order.  This predicate states that order for
a returned row list. -/
def revsDescending : List (Int × SubtreeProto) → Bool
  | [] => true
  | [_] => true
  | a :: b :: t => decide (b.1 < a.1) && revsDescending (b :: t)

/-- subtreeKey (tree_storage.go): the primary-key bytes of the subtree
containing `id`.  A non-byte-aligned prefix is a returned error; slicing
`Path[:PrefixLenBits/8]` beyond the path length is a Go runtime panic. -/
def subtreeKey (id : NodeID) : Outcome (List Nat) :=
  if id.prefixLenBits % 8 ≠ 0 then .err (.alignment id.prefixLenBits)
  else if id.prefixLenBits / 8 ≤ id.path.length then
    .ok (id.path.take (id.prefixLenBits / 8))
  else .panic

/-- The prefix fix-up performed by getSubtree before returning a row: a
zero-length subtree key with an unset stored prefix gets an explicit
empty prefix field. -/
def fixPrefix (stID : List Nat) (st : SubtreeProto) : SubtreeProto :=
  if st.pfx = none ∧ stID = [] then { st with pfx := some [] } else st

/-- The row-callback loop of getSubtree: scan the prefix-read rows in
iterator order, skip rows newer than the requested revision, fail on a
stored-prefix mismatch, and stop at the first qualifying row (the Go code
signals the early stop with the internal `errFinished` sentinel, which is
translated away here). -/
def scanRows (stID : List Nat) (rev : Int) :
    List (Int × SubtreeProto) → Outcome (Option SubtreeProto)
  | [] => .ok none
  | (rRev, st) :: rest =>
    if rev < rRev then scanRows stID rev rest
    else if bytesMatch stID st.pfx then
      if rev < rRev then .err (.revTooNew rRev rev)
      else .ok (some (fixPrefix stID st))
    else .err (.prefixMismatch stID st.pfx)

/-- getSubtree (tree_storage.go): most recent subtree for `id` at or below
revision `rev`; `ok none` when no row qualifies. -/
def getSubtree (b : Backend) (treeID : Int) (rev : Int) (id : NodeID) :
    Outcome (Option SubtreeProto) :=
  match subtreeKey id with
  | .panic => .panic
  | .err e => .err e
  | .ok stID =>
    match b.read treeID stID with
    | .error e => .err e
    | .ok rows => scanRows stID rev rows

/-- ORDER BY TimestampNanos DESC LIMIT 1 over the TreeHeads rows of one
tree: the first row attaining the maximal timestamp. -/
def maxByTs : List TreeHead → Option TreeHead
  | [] => none
  | h :: t => some (t.foldl (fun acc x => if acc.tsNanos < x.tsNanos then x else acc) h)

/-- latestSTH (tree_storage.go): newest tree head by timestamp, or the
distinguished tree-needs-init condition when the tree has none. -/
def latestSTH (b : Backend) (treeID : Int) : Except TSError TreeHead :=
  match maxByTs (b.heads treeID) with
  | none => .error .treeNeedsInit
  | some th => .ok th

/-- The dynamic type of the Spanner transaction held in `treeTX.stx`:
read-only, read-write, or some other `spanRead` implementation (the
`default` arm of Commit's type switch). -/
inductive STxKind where
  | readOnly
  | readWrite
  | other
deriving DecidableEq

/-- Modelled from the spec: the SubtreeCache collaborator (package
storage/cache, not under src/) — an in-memory node-to-subtree store with
dirty tracking.  `loaded` lists the subtree keys already populated from
storage; `recorded` buffers the (node id, hash) recordings in call
order. -/
structure CacheState where
  loaded : List (List Nat)
  recorded : List (NodeID × List Nat)
deriving DecidableEq

/-- The byte-aligned prefix of the subtree owning a node. -/
def owningKey (id : NodeID) : List Nat :=
  id.path.take (id.prefixLenBits / 8)

/-- Modelled from the spec: SubtreeCache.SetNodeHash — record the hash,
consulting the supplied loader only on a cache miss for the owning
subtree; a loader failure leaves the cache unchanged. -/
def setNodeHash (loader : NodeID → Outcome (Option SubtreeProto))
    (id : NodeID) (hash : List Nat) (c : CacheState) : Outcome CacheState :=
  if owningKey id ∈ c.loaded then
    .ok { c with recorded := c.recorded ++ [(id, hash)] }
  else
    match loader id with
    | .panic => .panic
    | .err e => .err e
    | .ok _ =>
      .ok { loaded := owningKey id :: c.loaded, recorded := c.recorded ++ [(id, hash)] }

/-- Distinct owning-subtree keys of the recorded entries, first-seen
order. -/
def dirtyKeys (recs : List (NodeID × List Nat)) : List (List Nat) :=
  (recs.map (fun p => owningKey p.1)).eraseDups

/-- The serialized dirty subtree for one key: its recorded leaf hashes. -/
def subtreeFor (recs : List (NodeID × List Nat)) (k : List Nat) : SubtreeProto :=
  { pfx := some k
    leaves := (recs.filter (fun p => owningKey p.1 == k)).map (fun p => (p.1.path, p.2)) }

/-- Modelled from the spec: SubtreeCache.Flush hands every dirty subtree
to the writer. -/
def dirtySubtrees (c : CacheState) : List (Option SubtreeProto) :=
  (dirtyKeys c.recorded).map (fun k => some (subtreeFor c.recorded k))

/-- treeTX (tree_storage.go): one tree transaction.  `stx = none` is the
closed state (the Go code nils the transaction pointer); the underscore
fields and `resolvedOnce` model the `sync.Once`-guarded memoization of
getLatestRoot. -/
structure TreeTX where
  treeID : Int
  stx : Option STxKind
  _currentSTH : Option TreeHead
  _currentSTHErr : Option TSError
  _writeRev : Int
  resolvedOnce : Bool
  cache : CacheState
  buffered : List Mutation
deriving DecidableEq

/-- begin (tree_storage.go): a freshly started transaction on `treeID`
with backend scope `k`, nothing resolved, empty cache, and no buffered
mutations. -/
def begin (treeID : Int) (k : STxKind) : TreeTX :=
  { treeID := treeID
    stx := some k
    _currentSTH := none
    _currentSTHErr := none
    _writeRev := 0
    resolvedOnce := false
    cache := { loaded := [], recorded := [] }
    buffered := [] }

/-- getLatestRoot (tree_storage.go): the once-only resolution of the
latest tree head; on success the write revision is the head's revision
plus one. -/
def getLatestRoot (b : Backend) (tx : TreeTX) : TreeTX :=
  if tx.resolvedOnce then tx
  else
    match latestSTH b tx.treeID with
    | .ok th =>
      { tx with
        resolvedOnce := true
        _currentSTH := some th
        _currentSTHErr := none
        _writeRev := th.treeRevision + 1 }
    | .error e =>
      { tx with resolvedOnce := true, _currentSTH := none, _currentSTHErr := some e }

/-- currentSTH (tree_storage.go): error-returning accessor for the
resolved tree head; triggers the one-time resolution. -/
def currentSTH (b : Backend) (tx : TreeTX) :
    Except TSError (Option TreeHead) × TreeTX :=
  match (getLatestRoot b tx)._currentSTHErr with
  | some e => (.error e, getLatestRoot b tx)
  | none => (.ok (getLatestRoot b tx)._currentSTH, getLatestRoot b tx)

/-- writeRev (tree_storage.go): error-returning accessor for the write
revision; triggers the one-time resolution. -/
def writeRev (b : Backend) (tx : TreeTX) : Except TSError Int × TreeTX :=
  match (getLatestRoot b tx)._currentSTHErr with
  | some e => (.error e, getLatestRoot b tx)
  | none => (.ok (getLatestRoot b tx)._writeRev, getLatestRoot b tx)

/-- ReadRevision (tree_storage.go): public accessor; a resolution error is
a Go `panic(err)`, never a silently defaulted revision. -/
def ReadRevision (b : Backend) (tx : TreeTX) : Outcome Int × TreeTX :=
  match currentSTH b tx with
  | (.error _, t) => (.panic, t)
  | (.ok none, t) => (.panic, t)
  | (.ok (some th), t) => (.ok th.treeRevision, t)

/-- WriteRevision (tree_storage.go): public accessor; a resolution error
is a Go `panic(err)`. -/
def WriteRevision (b : Backend) (tx : TreeTX) : Outcome Int × TreeTX :=
  match writeRev b tx with
  | (.error _, t) => (.panic, t)
  | (.ok w, t) => (.ok w, t)

/-- storeSubtrees (tree_storage.go): buffer one insert mutation per
non-nil subtree at the transaction's write revision; on anything but a
read-write Spanner transaction the dynamic type assertion fails with
ErrWrongTXType and nothing is buffered. -/
def storeSubtrees (tx : TreeTX) (sts : List (Option SubtreeProto)) :
    Outcome Unit × TreeTX :=
  if tx.stx = some .readWrite then
    (.ok (),
      { tx with
        buffered := tx.buffered ++ sts.filterMap (fun o =>
          o.map (fun st => Mutation.mk tx.treeID st.pfx tx._writeRev st)) })
  else (.err .wrongTXType, tx)

/-- flushSubtrees (tree_storage.go): cache.Flush(t.storeSubtrees). -/
def flushSubtrees (tx : TreeTX) : Outcome Unit × TreeTX :=
  storeSubtrees tx (dirtySubtrees tx.cache)

/-- Commit (tree_storage.go): on a closed transaction fail with
ErrTransactionClosed; otherwise close (the deferred `t.stx = nil`),
flushing the dirty subtrees first when the scope is read-write. -/
def Commit (tx : TreeTX) : Outcome Unit × TreeTX :=
  match tx.stx with
  | none => (.err .transactionClosed, tx)
  | some .readOnly => (.ok (), { tx with stx := none })
  | some .readWrite =>
    match flushSubtrees tx with
    | (r, t) => (r, { t with stx := none })
  | some .other => (.err .unknownTXType, { tx with stx := none })

/-- Rollback (tree_storage.go): close without flushing; fails with
ErrTransactionClosed when already closed. -/
def Rollback (tx : TreeTX) : Outcome Unit × TreeTX :=
  match tx.stx with
  | none => (.err .transactionClosed, tx)
  | some _ => (.ok (), { tx with stx := none })

/-- IsOpen (tree_storage.go). -/
def IsOpen (tx : TreeTX) : Bool :=
  tx.stx.isSome

/-- Close (tree_storage.go): roll back if still open, swallowing
ErrTransactionClosed; never an error on an already-closed transaction. -/
def Close (tx : TreeTX) : Outcome Unit × TreeTX :=
  if IsOpen tx then
    match Rollback tx with
    | (.err e, t) => if e = .transactionClosed then (.ok (), t) else (.err e, t)
    | (_, t) => (.ok (), t)
  else (.ok (), tx)

/-- The first Commit or Rollback on a transaction, abstracted over which
of the two is called. -/
inductive TxOp where
  | commit
  | rollback
deriving DecidableEq

/-- Run one lifecycle operation. -/
def runOp : TxOp → TreeTX → Outcome Unit × TreeTX
  | .commit, tx => Commit tx
  | .rollback, tx => Rollback tx

/-- The per-subtree fan-out of GetMerkleNodes: one getSubtree per
requested id, nil results dropped, the first failure (in the fixed
schedule the sequential embedding gives the nondeterministic goroutine
collection) aborting the batch with that error. -/
def fetchSubtrees (b : Backend) (treeID : Int) (rev : Int) :
    List NodeID → Outcome (List SubtreeProto)
  | [] => .ok []
  | id :: rest =>
    match getSubtree b treeID rev id with
    | .panic => .panic
    | .err e => .err e
    | .ok none => fetchSubtrees b treeID rev rest
    | .ok (some st) =>
      match fetchSubtrees b treeID rev rest with
      | .ok sts => .ok (st :: sts)
      | .err e => .err e
      | .panic => .panic

/-- GetMerkleNodes (tree_storage.go): fail on a closed transaction, else
delegate to cache.GetNodes with the parallel subtree fetcher as the miss
handler.  The cache-internal merge of fetched subtrees into nodes is an
external collaborator, abstracted as the `merge` parameter. -/
def GetMerkleNodes (merge : List SubtreeProto → List NodeID → List Node)
    (b : Backend) (tx : TreeTX) (rev : Int) (ids : List NodeID) :
    Outcome (List Node) :=
  match tx.stx with
  | none => .err .transactionClosed
  | some _ =>
    match fetchSubtrees b tx.treeID rev ids with
    | .panic => .panic
    | .err e => .err e
    | .ok sts => .ok (merge sts ids)

/-- The cache-miss loader SetMerkleNodes supplies to the cache: fetch the
owning subtree as of the write revision minus one. -/
def setMerkleLoader (b : Backend) (treeID : Int) (w : Int) :
    NodeID → Outcome (Option SubtreeProto) :=
  fun nID => getSubtree b treeID (w - 1) nID

/-- The node loop of SetMerkleNodes: record each hash in turn through the
cache, returning the first failure immediately (earlier recordings are
kept). -/
def setNodeHashLoop (loader : NodeID → Outcome (Option SubtreeProto)) :
    CacheState → List Node → Outcome Unit × CacheState
  | c, [] => (.ok (), c)
  | c, n :: ns =>
    match setNodeHash loader n.nodeID n.hash c with
    | .panic => (.panic, c)
    | .err e => (.err e, c)
    | .ok c' => setNodeHashLoop loader c' ns

/-- SetMerkleNodes (tree_storage.go): fail on a closed transaction,
resolve the write revision, then buffer every node hash in the cache via
setNodeHash; no backend write happens here. -/
def SetMerkleNodes (b : Backend) (tx : TreeTX) (nodes : List Node) :
    Outcome Unit × TreeTX :=
  match tx.stx with
  | none => (.err .transactionClosed, tx)
  | some _ =>
    match writeRev b tx with
    | (.error e, t) => (.err e, t)
    | (.ok w, t) =>
      match setNodeHashLoop (setMerkleLoader b t.treeID w) t.cache nodes with
      | (res, c') => (res, { t with cache := c' })

/-- Drop every row at or above revision `w` from the backend: the world
in which the in-progress write revision and anything newer does not
exist. -/
def restrictBelow (b : Backend) (w : Int) : Backend :=
  { b with read := fun t k => (b.read t k).map (List.filter (fun r => r.1 < w)) }

/-! Concrete test fixtures used by the witness theorems. -/

/-- A stored subtree blob written at revision 3 (nil stored prefix). -/
def st3 : SubtreeProto := { pfx := none, leaves := [([3], [3])] }

/-- A stored subtree blob written at revision 5 (nil stored prefix). -/
def st5 : SubtreeProto := { pfx := none, leaves := [([5], [5])] }

/-- A stored subtree blob written at revision 9 (nil stored prefix). -/
def st9 : SubtreeProto := { pfx := none, leaves := [([9], [9])] }

/-- Rows of the root subtree key at revisions {9, 5, 3}, in the
descending-revision order of the SubtreeData primary key. -/
def rowsW : List (Int × SubtreeProto) := [(9, st9), (5, st5), (3, st3)]

/-- A committed tree head at revision 4. -/
def thW : TreeHead :=
  { treeId := 1, tsNanos := 100, treeSize := 10, rootHash := [7], treeRevision := 4 }

/-- A backend for tree 1: one head at revision 4, root subtree rows
`rowsW`, every other key empty. -/
def bW : Backend :=
  { heads := fun t => if t = 1 then [thW] else []
    read := fun t k => if t = 1 ∧ k = [] then .ok rowsW else .ok [] }

/-- A backend whose tree-heads table is empty. -/
def bE : Backend := { heads := fun _ => [], read := fun _ _ => .ok [] }

/-- The root node id (empty path, zero-length prefix). -/
def idW : NodeID := { path := [], prefixLenBits := 0 }

/-- A byte-aligned node id owning subtree key [0]. -/
def n0 : Node := { nodeID := ⟨[0], 8⟩, hash := [42] }

/-- A node id with a non-byte-aligned prefix length. -/
def n1 : Node := { nodeID := ⟨[1], 4⟩, hash := [43] }

/-- A non-byte-aligned node id. -/
def idBad : NodeID := { path := [1, 2], prefixLenBits := 4 }

/-! Helper lemmas shared by the claim theorems. -/

theorem subtreeKey_aligned (id : NodeID) (h1 : id.prefixLenBits % 8 = 0)
    (h2 : id.prefixLenBits ≤ 8 * id.path.length) :
    subtreeKey id = .ok (id.path.take (id.prefixLenBits / 8)) := by
  unfold subtreeKey
  rw [if_neg (by omega), if_pos (by omega)]

theorem find?_cons_pos {α : Type} (p : α → Bool) (a : α) (l : List α)
    (h : p a = true) : (a :: l).find? p = some a := by
  simp [List.find?, h]

theorem find?_cons_neg {α : Type} (p : α → Bool) (a : α) (l : List α)
    (h : p a = false) : (a :: l).find? p = l.find? p := by
  simp [List.find?, h]

theorem find_mem_pred {α : Type} (p : α → Bool) :
    ∀ (l : List α) (a : α), l.find? p = some a → a ∈ l ∧ p a = true
  | [], a, h => by simp [List.find?] at h
  | x :: xs, a, h => by
    by_cases hx : p x = true
    · rw [find?_cons_pos p x xs hx] at h
      cases h
      exact ⟨List.mem_cons_self x xs, hx⟩
    · rw [find?_cons_neg p x xs (Bool.of_not_eq_true hx)] at h
      have := find_mem_pred p xs a h
      exact ⟨List.mem_cons_of_mem x this.1, this.2⟩

theorem revsDescending_tail (a : Int × SubtreeProto) (l : List (Int × SubtreeProto))
    (h : revsDescending (a :: l) = true) : revsDescending l = true := by
  cases l with
  | nil => rfl
  | cons b t =>
    simp only [revsDescending, Bool.and_eq_true] at h
    exact h.2

theorem revsDescending_head_gt (a : Int × SubtreeProto) :
    ∀ (l : List (Int × SubtreeProto)), revsDescending (a :: l) = true →
      ∀ r ∈ l, r.1 < a.1
  | [], _, r, hr => by simp at hr
  | b :: t, h, r, hr => by
    simp only [revsDescending, Bool.and_eq_true, decide_eq_true_eq] at h
    rcases List.mem_cons.mp hr with rfl | hrt
    · exact h.1
    · exact lt_trans (revsDescending_head_gt b t h.2 r hrt) h.1

theorem find_first_le_is_max (rev : Int) :
    ∀ (rows : List (Int × SubtreeProto)) (r : Int × SubtreeProto),
      revsDescending rows = true →
      rows.find? (fun x => decide (x.1 ≤ rev)) = some r →
      ∀ r' ∈ rows, r'.1 ≤ rev → r'.1 ≤ r.1
  | [], r, _, hf => by simp [List.find?] at hf
  | a :: rest, r, hs, hf => by
    by_cases ha : a.1 ≤ rev
    · rw [find?_cons_pos (fun x => decide (x.1 ≤ rev)) a rest (decide_eq_true ha)] at hf
      cases hf
      intro r' hr' _
      rcases List.mem_cons.mp hr' with rfl | hrt
      · exact le_refl _
      · exact le_of_lt (revsDescending_head_gt a rest hs r' hrt)
    · rw [find?_cons_neg (fun x => decide (x.1 ≤ rev)) a rest (decide_eq_false ha)] at hf
      intro r' hr' hle
      rcases List.mem_cons.mp hr' with rfl | hrt
      · exact absurd hle ha
      · exact find_first_le_is_max rev rest r (revsDescending_tail a rest hs) hf r' hrt hle

theorem scanRows_eq_find (stID : List Nat) (rev : Int) :
    ∀ rows : List (Int × SubtreeProto),
      rows.all (fun r => bytesMatch stID r.2.pfx) = true →
      scanRows stID rev rows
        = .ok ((rows.find? (fun r => decide (r.1 ≤ rev))).map (fun r => fixPrefix stID r.2))
  | [], _ => rfl
  | (rRev, st) :: rest, h => by
    rw [List.all_cons, Bool.and_eq_true] at h
    by_cases hr : rev < rRev
    · rw [find?_cons_neg (fun r => decide (r.1 ≤ rev)) (rRev, st) rest
        (by simp only [decide_eq_false_iff_not]; omega)]
      show scanRows stID rev ((rRev, st) :: rest) = _
      unfold scanRows
      rw [if_pos hr]
      exact scanRows_eq_find stID rev rest h.2
    · rw [find?_cons_pos (fun r => decide (r.1 ≤ rev)) (rRev, st) rest
        (by simp only [decide_eq_true_eq]; omega)]
      show scanRows stID rev ((rRev, st) :: rest) = _
      unfold scanRows
      rw [if_neg hr, if_pos h.1, if_neg hr]
      rfl

theorem scanRows_all_newer (stID : List Nat) (rev : Int) :
    ∀ rows : List (Int × SubtreeProto), (∀ r ∈ rows, rev < r.1) →
      scanRows stID rev rows = .ok none
  | [], _ => rfl
  | (rRev, st) :: rest, hnew => by
    have ha : rev < rRev := hnew (rRev, st) (List.mem_cons_self _ _)
    show scanRows stID rev ((rRev, st) :: rest) = .ok none
    unfold scanRows
    rw [if_pos ha]
    exact scanRows_all_newer stID rev rest (fun r hr' => hnew r (List.mem_cons_of_mem _ hr'))

/-! Claim theorems. -/

/-- C4 counterexample: the claim quantifies over every NodeID, but for the
NodeID with empty path and PrefixLenBits = 8 (a multiple of 8) subtreeKey
is the Go slice-bounds panic, not a returned byte string. -/
theorem c4_counterexample :
    (8 : Nat) % 8 = 0 ∧ subtreeKey ⟨[], 8⟩ = .panic ∧
      subtreeKey ⟨[], 8⟩ ≠ .ok (([] : List Nat).take (8 / 8)) := by decide

/-- C4 (amended): for every NodeID whose PrefixLenBits is a multiple of 8
and at most 8 times the path length, subtreeKey returns exactly the first
PrefixLenBits/8 bytes of the path, and this mapping is injective across
distinct byte-aligned prefixes; whenever PrefixLenBits % 8 is nonzero it
fails with the alignment error. -/
theorem c4_subtreeKey_aligned_bytes (id idB : NodeID) :
    (id.prefixLenBits % 8 = 0 → id.prefixLenBits ≤ 8 * id.path.length →
      subtreeKey id = .ok (id.path.take (id.prefixLenBits / 8)))
    ∧ (id.prefixLenBits % 8 ≠ 0 →
      subtreeKey id = .err (.alignment id.prefixLenBits))
    ∧ (id.prefixLenBits % 8 = 0 → id.prefixLenBits ≤ 8 * id.path.length →
       idB.prefixLenBits % 8 = 0 → idB.prefixLenBits ≤ 8 * idB.path.length →
       subtreeKey id = subtreeKey idB →
       id.path.take (id.prefixLenBits / 8) = idB.path.take (idB.prefixLenBits / 8)) := by
  refine ⟨subtreeKey_aligned id, fun h1 => ?_, fun h1 h2 h1' h2' heq => ?_⟩
  · unfold subtreeKey
    rw [if_pos h1]
  · rw [subtreeKey_aligned id h1 h2, subtreeKey_aligned idB h1' h2'] at heq
    injection heq

/-- C4 witness: a concrete aligned two-byte id whose subtree key is its
first byte, and a concrete misaligned id rejected with the alignment
error. -/
theorem c4_witness :
    (8 : Nat) % 8 = 0 ∧ (8 : Nat) ≤ 8 * 2 ∧
      subtreeKey ⟨[1, 2], 8⟩ = .ok ([1, 2].take (8 / 8)) ∧
      subtreeKey idBad = .err (.alignment 4) :=
  ⟨by decide, by decide,
    (c4_subtreeKey_aligned_bytes ⟨[1, 2], 8⟩ idBad).1 (by decide) (by decide),
    (c4_subtreeKey_aligned_bytes idBad idBad).2.1 (by decide)⟩

/-- C9: subtreeKey is only total under the unstated precondition
PrefixLenBits ≤ 8 * len(Path): for any NodeID whose PrefixLenBits is a
multiple of 8 but exceeds 8 times the path length, the slice expression
Path[:PrefixLenBits/8] is the Go runtime panic — the distinguished
`Outcome.panic`, never a returned error value. -/
theorem c9_subtreeKey_out_of_range_panics (id : NodeID)
    (h1 : id.prefixLenBits % 8 = 0) (h2 : 8 * id.path.length < id.prefixLenBits) :
    subtreeKey id = .panic ∧ ∀ e : TSError, subtreeKey id ≠ .err e := by
  have hk : subtreeKey id = .panic := by
    unfold subtreeKey
    rw [if_neg (by omega), if_neg (by omega)]
  exact ⟨hk, fun e h => by rw [hk] at h; exact Outcome.noConfusion h⟩

/-- C9 witness: a one-byte path with a 16-bit (aligned, out-of-range)
prefix length panics. -/
theorem c9_witness :
    (16 : Nat) % 8 = 0 ∧ 8 * 1 < 16 ∧ subtreeKey ⟨[0], 16⟩ = .panic :=
  ⟨by decide, by decide,
    (c9_subtreeKey_out_of_range_panics ⟨[0], 16⟩ (by decide) (by decide)).1⟩

/-- C6: a subtree never written — every stored row for its key is newer
than the requested revision, including the no-rows case — yields
`ok none`: a normal nil result with no error, not a NotFound failure. -/
theorem c6_never_written_nil_no_error (b : Backend) (treeID rev : Int)
    (id : NodeID) (stID : List Nat) (rows : List (Int × SubtreeProto))
    (hk : subtreeKey id = .ok stID)
    (hr : b.read treeID stID = .ok rows)
    (hnew : ∀ r ∈ rows, rev < r.1) :
    getSubtree b treeID rev id = .ok none := by
  simp only [getSubtree, hk, hr]
  exact scanRows_all_newer stID rev rows hnew

/-- C6 witness: reading at revision 2 a key whose stored rows all have
revisions {9, 5, 3} above 2 yields the normal nil-no-error outcome. -/
theorem c6_witness :
    subtreeKey idW = .ok [] ∧ (∀ r ∈ rowsW, (2 : Int) < r.1) ∧
      getSubtree bW 1 2 idW = .ok none :=
  ⟨rfl, by decide,
    c6_never_written_nil_no_error bW 1 2 idW [] rowsW rfl rfl (by decide)⟩

/-- C1: over rows in the descending-revision order of the SubtreeData
primary key (the schema is not under src/; its order is modelled from the
spec) whose stored prefixes match the key, getSubtree at revision `rev`
returns exactly the first row with revision ≤ rev — none qualifying gives
`ok none`, so a row with revision > rev is never returned — and that
first row attains the maximal revision ≤ rev among all stored rows. -/
theorem c1_getSubtree_highest_at_most_rev (b : Backend) (treeID rev : Int)
    (id : NodeID) (stID : List Nat) (rows : List (Int × SubtreeProto))
    (hk : subtreeKey id = .ok stID)
    (hr : b.read treeID stID = .ok rows)
    (hs : revsDescending rows = true)
    (hp : rows.all (fun r => bytesMatch stID r.2.pfx) = true) :
    getSubtree b treeID rev id
      = .ok ((rows.find? (fun r => decide (r.1 ≤ rev))).map (fun r => fixPrefix stID r.2))
    ∧ ∀ r, rows.find? (fun r => decide (r.1 ≤ rev)) = some r →
        r ∈ rows ∧ r.1 ≤ rev ∧ ∀ r' ∈ rows, r'.1 ≤ rev → r'.1 ≤ r.1 := by
  constructor
  · simp only [getSubtree, hk, hr]
    exact scanRows_eq_find stID rev rows hp
  · intro r hfind
    have hmp := find_mem_pred _ rows r hfind
    exact ⟨hmp.1, of_decide_eq_true hmp.2, find_first_le_is_max rev rows r hs hfind⟩

/-- C1 witness: rows at revisions {3, 5, 9} for the root key, read at
revision 7: the row at revision 5 is returned. -/
theorem c1_witness :
    revsDescending rowsW = true ∧
      rowsW.find? (fun r => decide (r.1 ≤ (7 : Int))) = some (5, st5) ∧
      getSubtree bW 1 7 idW = .ok (some (fixPrefix [] st5)) := by
  refine ⟨by decide, by decide, ?_⟩
  have h := (c1_getSubtree_highest_at_most_rev bW 1 7 idW [] rowsW rfl rfl
    (by decide) (by decide)).1
  rw [h]
  rfl

theorem getLatestRoot_of_ok (b : Backend) (tx : TreeTX) (th : TreeHead)
    (h0 : tx.resolvedOnce = false) (hth : latestSTH b tx.treeID = .ok th) :
    getLatestRoot b tx
      = { tx with
          resolvedOnce := true
          _currentSTH := some th
          _currentSTHErr := none
          _writeRev := th.treeRevision + 1 } := by
  unfold getLatestRoot
  rw [if_neg (by simp [h0]), hth]

theorem getLatestRoot_of_err (b : Backend) (tx : TreeTX) (e : TSError)
    (h0 : tx.resolvedOnce = false) (hth : latestSTH b tx.treeID = .error e) :
    getLatestRoot b tx
      = { tx with resolvedOnce := true, _currentSTH := none, _currentSTHErr := some e } := by
  unfold getLatestRoot
  rw [if_neg (by simp [h0]), hth]

theorem getLatestRoot_resolved (b : Backend) (tx : TreeTX)
    (h0 : tx.resolvedOnce = true) : getLatestRoot b tx = tx := by
  unfold getLatestRoot
  rw [if_pos h0]

theorem writeRev_fresh_ok (b : Backend) (tx : TreeTX) (th : TreeHead)
    (h0 : tx.resolvedOnce = false) (hth : latestSTH b tx.treeID = .ok th) :
    writeRev b tx
      = (.ok (th.treeRevision + 1),
        { tx with
          resolvedOnce := true
          _currentSTH := some th
          _currentSTHErr := none
          _writeRev := th.treeRevision + 1 }) := by
  unfold writeRev
  rw [getLatestRoot_of_ok b tx th h0 hth]

theorem writeRev_fresh_err (b : Backend) (tx : TreeTX) (e : TSError)
    (h0 : tx.resolvedOnce = false) (hth : latestSTH b tx.treeID = .error e) :
    writeRev b tx
      = (.error e,
        { tx with resolvedOnce := true, _currentSTH := none, _currentSTHErr := some e }) := by
  unfold writeRev
  rw [getLatestRoot_of_err b tx e h0 hth]

theorem currentSTH_fresh_ok (b : Backend) (tx : TreeTX) (th : TreeHead)
    (h0 : tx.resolvedOnce = false) (hth : latestSTH b tx.treeID = .ok th) :
    currentSTH b tx
      = (.ok (some th),
        { tx with
          resolvedOnce := true
          _currentSTH := some th
          _currentSTHErr := none
          _writeRev := th.treeRevision + 1 }) := by
  unfold currentSTH
  rw [getLatestRoot_of_ok b tx th h0 hth]

theorem currentSTH_fresh_err (b : Backend) (tx : TreeTX) (e : TSError)
    (h0 : tx.resolvedOnce = false) (hth : latestSTH b tx.treeID = .error e) :
    currentSTH b tx
      = (.error e,
        { tx with resolvedOnce := true, _currentSTH := none, _currentSTHErr := some e }) := by
  unfold currentSTH
  rw [getLatestRoot_of_err b tx e h0 hth]

theorem writeRev_resolved_none (b : Backend) (tx : TreeTX)
    (h0 : tx.resolvedOnce = true) (he : tx._currentSTHErr = none) :
    writeRev b tx = (.ok tx._writeRev, tx) := by
  unfold writeRev
  rw [getLatestRoot_resolved b tx h0]
  simp only [he]

theorem writeRev_resolved_err (b : Backend) (tx : TreeTX) (e : TSError)
    (h0 : tx.resolvedOnce = true) (he : tx._currentSTHErr = some e) :
    writeRev b tx = (.error e, tx) := by
  unfold writeRev
  rw [getLatestRoot_resolved b tx h0]
  simp only [he]

theorem currentSTH_resolved_none (b : Backend) (tx : TreeTX)
    (h0 : tx.resolvedOnce = true) (he : tx._currentSTHErr = none) :
    currentSTH b tx = (.ok tx._currentSTH, tx) := by
  unfold currentSTH
  rw [getLatestRoot_resolved b tx h0]
  simp only [he]

theorem currentSTH_resolved_err (b : Backend) (tx : TreeTX) (e : TSError)
    (h0 : tx.resolvedOnce = true) (he : tx._currentSTHErr = some e) :
    currentSTH b tx = (.error e, tx) := by
  unfold currentSTH
  rw [getLatestRoot_resolved b tx h0]
  simp only [he]

/-- C2: from a freshly begun transaction, once tree-head resolution
succeeds with head `th`, the write-revision accessor yields
th.treeRevision + 1 and the read-side accessor yields `th`, and repeated
(memoized) calls agree; when the tree has no head, both error-returning
accessors propagate the tree-needs-init error, on the first and on every
later call, and the public ReadRevision/WriteRevision wrappers surface
the same condition as a panic — never a silently defaulted revision. -/
theorem c2_revision_resolution (b : Backend) (treeID : Int) (k : STxKind) :
    (∀ th, latestSTH b treeID = .ok th →
        (writeRev b (begin treeID k)).1 = .ok (th.treeRevision + 1)
      ∧ (currentSTH b (begin treeID k)).1 = .ok (some th)
      ∧ (writeRev b (writeRev b (begin treeID k)).2).1 = .ok (th.treeRevision + 1)
      ∧ (currentSTH b (currentSTH b (begin treeID k)).2).1 = .ok (some th)
      ∧ (ReadRevision b (begin treeID k)).1 = .ok th.treeRevision
      ∧ (WriteRevision b (begin treeID k)).1 = .ok (th.treeRevision + 1))
    ∧ (b.heads treeID = [] →
        (writeRev b (begin treeID k)).1 = .error .treeNeedsInit
      ∧ (currentSTH b (begin treeID k)).1 = .error .treeNeedsInit
      ∧ (writeRev b (writeRev b (begin treeID k)).2).1 = .error .treeNeedsInit
      ∧ (currentSTH b (currentSTH b (begin treeID k)).2).1 = .error .treeNeedsInit
      ∧ (ReadRevision b (begin treeID k)).1 = .panic
      ∧ (WriteRevision b (begin treeID k)).1 = .panic) := by
  constructor
  · intro th hth
    have h1 := writeRev_fresh_ok b (begin treeID k) th rfl hth
    have h2 := currentSTH_fresh_ok b (begin treeID k) th rfl hth
    refine ⟨by rw [h1], by rw [h2], ?_, ?_, ?_, ?_⟩
    · rw [h1, writeRev_resolved_none b _ rfl rfl]
    · rw [h2, currentSTH_resolved_none b _ rfl rfl]
    · unfold ReadRevision
      rw [h2]
    · unfold WriteRevision
      rw [h1]
  · intro hnil
    have hth : latestSTH b treeID = .error .treeNeedsInit := by
      unfold latestSTH
      rw [hnil]
      rfl
    have h1 := writeRev_fresh_err b (begin treeID k) .treeNeedsInit rfl hth
    have h2 := currentSTH_fresh_err b (begin treeID k) .treeNeedsInit rfl hth
    refine ⟨by rw [h1], by rw [h2], ?_, ?_, ?_, ?_⟩
    · rw [h1, writeRev_resolved_err b _ .treeNeedsInit rfl rfl]
    · rw [h2, currentSTH_resolved_err b _ .treeNeedsInit rfl rfl]
    · unfold ReadRevision
      rw [h2]
    · unfold WriteRevision
      rw [h1]

/-- C2 witness: a backend with one head at revision 4 resolves the write
revision to 5; an empty tree-heads table makes both accessors fail with
the tree-needs-init error. -/
theorem c2_witness :
    latestSTH bW 1 = .ok thW ∧ bE.heads 1 = [] ∧
      (writeRev bW (begin 1 .readWrite)).1 = .ok (thW.treeRevision + 1) ∧
      (currentSTH bW (begin 1 .readWrite)).1 = .ok (some thW) ∧
      (writeRev bE (begin 1 .readWrite)).1 = .error .treeNeedsInit ∧
      (currentSTH bE (begin 1 .readWrite)).1 = .error .treeNeedsInit := by
  have hA := (c2_revision_resolution bW 1 .readWrite).1 thW rfl
  have hB := (c2_revision_resolution bE 1 .readWrite).2 rfl
  exact ⟨rfl, rfl, hA.1, hA.2.1, hB.1, hB.2.1⟩

theorem getLatestRoot_treeID (b : Backend) (tx : TreeTX) :
    (getLatestRoot b tx).treeID = tx.treeID := by
  unfold getLatestRoot
  by_cases h0 : tx.resolvedOnce = true
  · rw [if_pos h0]
  · rw [if_neg h0]
    cases latestSTH b tx.treeID <;> rfl

theorem getLatestRoot_cache (b : Backend) (tx : TreeTX) :
    (getLatestRoot b tx).cache = tx.cache := by
  unfold getLatestRoot
  by_cases h0 : tx.resolvedOnce = true
  · rw [if_pos h0]
  · rw [if_neg h0]
    cases latestSTH b tx.treeID <;> rfl

theorem getLatestRoot_buffered (b : Backend) (tx : TreeTX) :
    (getLatestRoot b tx).buffered = tx.buffered := by
  unfold getLatestRoot
  by_cases h0 : tx.resolvedOnce = true
  · rw [if_pos h0]
  · rw [if_neg h0]
    cases latestSTH b tx.treeID <;> rfl

theorem getLatestRoot_stx (b : Backend) (tx : TreeTX) :
    (getLatestRoot b tx).stx = tx.stx := by
  unfold getLatestRoot
  by_cases h0 : tx.resolvedOnce = true
  · rw [if_pos h0]
  · rw [if_neg h0]
    cases latestSTH b tx.treeID <;> rfl

theorem writeRev_snd (b : Backend) (tx : TreeTX) :
    (writeRev b tx).2 = getLatestRoot b tx := by
  unfold writeRev
  cases (getLatestRoot b tx)._currentSTHErr <;> rfl

/-- C5: the open-to-closed transition happens at most once: whichever of
Commit or Rollback is called first on an open transaction closes it, any
second Commit or Rollback (in any combination) fails with the
TransactionClosed error and the transaction stays closed, while a later
Close returns success. -/
theorem c5_close_at_most_once (tx : TreeTX) (op₁ op₂ : TxOp)
    (h : tx.stx ≠ none) :
    (runOp op₁ tx).2.stx = none
    ∧ (runOp op₂ (runOp op₁ tx).2).1 = .err .transactionClosed
    ∧ (runOp op₂ (runOp op₁ tx).2).2.stx = none
    ∧ (Close (runOp op₁ tx).2).1 = .ok () := by
  obtain ⟨k, hk⟩ : ∃ k, tx.stx = some k := by
    cases hs : tx.stx with
    | none => exact absurd hs h
    | some k => exact ⟨k, rfl⟩
  have h1 : (runOp op₁ tx).2.stx = none := by
    cases op₁ with
    | commit =>
      cases k <;> simp [runOp, Commit, hk, flushSubtrees, storeSubtrees]
    | rollback => simp [runOp, Rollback, hk]
  have h2 : ∀ t : TreeTX, t.stx = none → ∀ op, runOp op t = (.err .transactionClosed, t) := by
    intro t ht op
    cases op with
    | commit => simp [runOp, Commit, ht]
    | rollback => simp [runOp, Rollback, ht]
  refine ⟨h1, ?_, ?_, ?_⟩
  · rw [h2 _ h1 op₂]
  · rw [h2 _ h1 op₂]
    exact h1
  · simp [Close, IsOpen, h1]

/-- C5 witness: commit a fresh read-write transaction, then commit again:
the second commit fails with TransactionClosed, while Close succeeds. -/
theorem c5_witness :
    (begin 1 .readWrite).stx ≠ none
    ∧ (runOp .commit (begin 1 .readWrite)).2.stx = none
    ∧ (runOp .commit (runOp .commit (begin 1 .readWrite)).2).1 = .err .transactionClosed
    ∧ (Close (runOp .commit (begin 1 .readWrite)).2).1 = .ok () := by
  have h := c5_close_at_most_once (begin 1 .readWrite) .commit .commit (by decide)
  exact ⟨by decide, h.1, h.2.1, h.2.2.2⟩

theorem SetMerkleNodes_buffered (b : Backend) (tx : TreeTX) (nodes : List Node) :
    (SetMerkleNodes b tx nodes).2.buffered = tx.buffered := by
  unfold SetMerkleNodes
  cases hs : tx.stx with
  | none => rfl
  | some k =>
    by_cases h0 : tx.resolvedOnce = true
    · cases he : tx._currentSTHErr with
      | some e => rw [writeRev_resolved_err b tx e h0 he]
      | none => rw [writeRev_resolved_none b tx h0 he]
    · have h0' : tx.resolvedOnce = false := by simpa using h0
      cases hth : latestSTH b tx.treeID with
      | ok th => rw [writeRev_fresh_ok b tx th h0' hth]
      | error e => rw [writeRev_fresh_err b tx e h0' hth]

/-- C3 counterexample: on an open read-only transaction (backed by a tree
with a head), SetMerkleNodes does not fail with WrongTransactionType — it
returns success, so the claim as stated is false. -/
theorem c3_counterexample :
    (begin 1 .readOnly).stx = some .readOnly
    ∧ (SetMerkleNodes bW (begin 1 .readOnly) [n0]).1 = .ok ()
    ∧ (SetMerkleNodes bW (begin 1 .readOnly) [n0]).1 ≠ .err .wrongTXType := by
  refine ⟨rfl, by decide, by decide⟩

/-- C3 (amended): SetMerkleNodes itself performs no backend write on any
transaction (its buffered-mutation list is untouched) and does not check
the scope type; the WrongTransactionType guard sits on the flush path:
storeSubtrees on a transaction whose scope is read-only fails with the
WrongTXType error and buffers nothing, and Commit on a read-only scope
just closes without writing. -/
theorem c3_wrong_tx_type_at_flush (b : Backend) (tx : TreeTX)
    (sts : List (Option SubtreeProto)) (nodes : List Node)
    (h : tx.stx = some .readOnly) :
    storeSubtrees tx sts = (.err .wrongTXType, tx)
    ∧ (SetMerkleNodes b tx nodes).2.buffered = tx.buffered
    ∧ Commit tx = (.ok (), { tx with stx := none }) := by
  refine ⟨?_, SetMerkleNodes_buffered b tx nodes, ?_⟩
  · unfold storeSubtrees
    rw [if_neg (by simp [h])]
  · unfold Commit
    rw [h]

/-- C3 witness: a concrete read-only transaction: storeSubtrees fails with
WrongTXType leaving the state unchanged, and SetMerkleNodes leaves the
buffered mutations empty. -/
theorem c3_witness :
    (begin 1 .readOnly).stx = some .readOnly
    ∧ storeSubtrees (begin 1 .readOnly) [some st5]
        = (.err .wrongTXType, begin 1 .readOnly)
    ∧ (SetMerkleNodes bW (begin 1 .readOnly) [n0]).2.buffered
        = (begin 1 .readOnly).buffered := by
  have h := c3_wrong_tx_type_at_flush bW (begin 1 .readOnly) [some st5] [n0] rfl
  exact ⟨rfl, h.1, h.2.1⟩

theorem fetchSubtrees_first_err (b : Backend) (treeID rev : Int) (e : TSError) :
    ∀ (pre : List NodeID) (idf : NodeID) (post : List NodeID),
      (∀ x ∈ pre, (getSubtree b treeID rev x).isOk = true) →
      getSubtree b treeID rev idf = .err e →
      fetchSubtrees b treeID rev (pre ++ idf :: post) = .err e
  | [], idf, post, _, hf => by
    rw [List.nil_append]
    unfold fetchSubtrees
    rw [hf]
  | x :: pre, idf, post, hpre, hf => by
    have hx := hpre x (List.mem_cons_self _ _)
    have hrest := fetchSubtrees_first_err b treeID rev e pre idf post
      (fun y hy => hpre y (List.mem_cons_of_mem _ hy)) hf
    rw [List.cons_append]
    unfold fetchSubtrees
    cases hgx : getSubtree b treeID rev x with
    | ok o =>
      cases o with
      | none => exact hrest
      | some st => rw [hrest]
    | err eBad => rw [hgx] at hx; exact absurd hx (by simp [Outcome.isOk])
    | panic => rw [hgx] at hx; exact absurd hx (by simp [Outcome.isOk])

/-- C7: when the fetch of one requested subtree fails and every fetch
scheduled before it succeeds, GetMerkleNodes returns that first observed
error — for every cache merge function and whatever the remaining ids
would have produced, so no partial node list is ever returned. -/
theorem c7_first_error_no_partial_list
    (merge : List SubtreeProto → List NodeID → List Node) (b : Backend)
    (tx : TreeTX) (rev : Int) (pre post : List NodeID) (idf : NodeID)
    (e : TSError) (k : STxKind) (hopen : tx.stx = some k)
    (hpre : ∀ x ∈ pre, (getSubtree b tx.treeID rev x).isOk = true)
    (hf : getSubtree b tx.treeID rev idf = .err e) :
    GetMerkleNodes merge b tx rev (pre ++ idf :: post) = .err e := by
  unfold GetMerkleNodes
  rw [hopen, fetchSubtrees_first_err b tx.treeID rev e pre idf post hpre hf]

/-- C7 witness: three requested ids over two subtrees where the second
fetch fails with the alignment error: the whole call returns exactly that
error. -/
theorem c7_witness :
    (∀ x ∈ [idW], (getSubtree bW (begin 1 .readWrite).treeID 7 x).isOk = true)
    ∧ getSubtree bW (begin 1 .readWrite).treeID 7 idBad = .err (.alignment 4)
    ∧ GetMerkleNodes (fun _ _ => []) bW (begin 1 .readWrite) 7
        ([idW] ++ idBad :: [idW]) = .err (.alignment 4) :=
  ⟨by decide, by decide,
    c7_first_error_no_partial_list (fun _ _ => []) bW (begin 1 .readWrite) 7
      [idW] [idW] idBad (.alignment 4) .readWrite rfl (by decide) (by decide)⟩

theorem restrictBelow_read (b : Backend) (w t : Int) (k : List Nat) :
    (restrictBelow b w).read t k
      = (b.read t k).map (List.filter (fun r => decide (r.1 < w))) := rfl

theorem writeRev_restrictBelow (b : Backend) (w : Int) (tx : TreeTX) :
    writeRev (restrictBelow b w) tx = writeRev b tx := rfl

theorem filter_lt_eq_filter_le (w : Int) (rows : List (Int × SubtreeProto)) :
    rows.filter (fun r => decide (r.1 < w))
      = rows.filter (fun r => decide (r.1 ≤ w - 1)) := by
  apply List.filter_congr
  intro r _
  simp only [decide_eq_decide]
  omega

theorem scanRows_filter_le (stID : List Nat) (rev : Int) :
    ∀ rows : List (Int × SubtreeProto),
      scanRows stID rev (rows.filter (fun r => decide (r.1 ≤ rev)))
        = scanRows stID rev rows
  | [] => rfl
  | (rRev, st) :: rest => by
    by_cases h : rRev ≤ rev
    · rw [List.filter_cons, if_pos (by simpa using h)]
      have h' : ¬ rev < rRev := by omega
      unfold scanRows
      simp only [if_neg h']
    · rw [List.filter_cons, if_neg (by simpa using h)]
      have h' : rev < rRev := by omega
      have hR : scanRows stID rev ((rRev, st) :: rest) = scanRows stID rev rest := by
        unfold scanRows
        rw [if_pos h']
        cases rest <;> rfl
      rw [hR]
      exact scanRows_filter_le stID rev rest

theorem getSubtree_restrictBelow (b : Backend) (treeID w : Int) (id : NodeID) :
    getSubtree (restrictBelow b w) treeID (w - 1) id
      = getSubtree b treeID (w - 1) id := by
  unfold getSubtree
  cases hk : subtreeKey id with
  | panic => rfl
  | err e => rfl
  | ok stID =>
    show (match (restrictBelow b w).read treeID stID with
          | Except.error e => Outcome.err e
          | Except.ok rows => scanRows stID (w - 1) rows)
        = (match b.read treeID stID with
          | Except.error e => Outcome.err e
          | Except.ok rows => scanRows stID (w - 1) rows)
    rw [restrictBelow_read]
    cases hr : b.read treeID stID with
    | error e => rfl
    | ok rows =>
      show scanRows stID (w - 1) (rows.filter (fun r => decide (r.1 < w)))
          = scanRows stID (w - 1) rows
      rw [filter_lt_eq_filter_le w rows]
      exact scanRows_filter_le stID (w - 1) rows

theorem setMerkleLoader_restrictBelow (b : Backend) (treeID w : Int) :
    setMerkleLoader (restrictBelow b w) treeID w = setMerkleLoader b treeID w :=
  funext fun nID => getSubtree_restrictBelow b treeID w nID

theorem SetMerkleNodes_open (b : Backend) (tx : TreeTX) (nodes : List Node)
    (k : STxKind) (hopen : tx.stx = some k) (w : Int)
    (hw : (writeRev b tx).1 = .ok w) :
    SetMerkleNodes b tx nodes
      = ((setNodeHashLoop (setMerkleLoader b tx.treeID w) tx.cache nodes).1,
        { (writeRev b tx).2 with
          cache := (setNodeHashLoop (setMerkleLoader b tx.treeID w) tx.cache nodes).2 }) := by
  unfold SetMerkleNodes
  rw [hopen]
  cases hwr : writeRev b tx with
  | mk r t =>
    cases r with
    | error eBad =>
      rw [hwr] at hw
      exact Except.noConfusion hw
    | ok wGot =>
      rw [hwr] at hw
      injection hw with hww
      subst hww
      have ht2 : t.treeID = tx.treeID := by
        have h := getLatestRoot_treeID b tx
        rw [← writeRev_snd, hwr] at h
        exact h
      have hc2 : t.cache = tx.cache := by
        have h := getLatestRoot_cache b tx
        rw [← writeRev_snd, hwr] at h
        exact h
      show (match setNodeHashLoop (setMerkleLoader b t.treeID wGot) t.cache nodes with
            | (res, c') => (res, { t with cache := c' }))
          = ((setNodeHashLoop (setMerkleLoader b tx.treeID wGot) tx.cache nodes).1,
            { t with
              cache := (setNodeHashLoop (setMerkleLoader b tx.treeID wGot) tx.cache nodes).2 })
      rw [ht2, hc2]

/-- C8: removing from the backend every subtree row at or above the
resolved write revision W leaves SetMerkleNodes (result and state)
unchanged: the cache-miss loader it supplies reads the owning subtree as
of W - 1, the last fully committed state, and never observes the
in-progress write revision W. -/
theorem c8_loader_never_reads_write_revision (b : Backend) (tx : TreeTX)
    (nodes : List Node) (w : Int) (k : STxKind) (hopen : tx.stx = some k)
    (hw : (writeRev b tx).1 = .ok w) :
    SetMerkleNodes b tx nodes = SetMerkleNodes (restrictBelow b w) tx nodes := by
  rw [SetMerkleNodes_open b tx nodes k hopen w hw,
    SetMerkleNodes_open (restrictBelow b w) tx nodes k hopen w
      (by rw [writeRev_restrictBelow b w tx]; exact hw),
    writeRev_restrictBelow b w tx,
    setMerkleLoader_restrictBelow b tx.treeID w]

/-- C8 witness: with a head at revision 4 (write revision 5), writing a
node hash sees exactly the same world whether or not rows at revision 5
and above exist. -/
theorem c8_witness :
    (begin 1 .readWrite).stx = some STxKind.readWrite
    ∧ (writeRev bW (begin 1 .readWrite)).1 = .ok 5
    ∧ SetMerkleNodes bW (begin 1 .readWrite) [n0]
        = SetMerkleNodes (restrictBelow bW 5) (begin 1 .readWrite) [n0] :=
  ⟨rfl, rfl,
    c8_loader_never_reads_write_revision bW (begin 1 .readWrite) [n0] 5 .readWrite
      rfl rfl⟩

theorem setNodeHash_recorded (loader : NodeID → Outcome (Option SubtreeProto))
    (id : NodeID) (hash : List Nat) (c c' : CacheState)
    (h : setNodeHash loader id hash c = .ok c') :
    c'.recorded = c.recorded ++ [(id, hash)] := by
  unfold setNodeHash at h
  by_cases hk : owningKey id ∈ c.loaded
  · rw [if_pos hk] at h
    injection h with h
    rw [← h]
  · rw [if_neg hk] at h
    cases hl : loader id with
    | ok o =>
      rw [hl] at h
      injection h with h
      rw [← h]
    | err e => rw [hl] at h; exact Outcome.noConfusion h
    | panic => rw [hl] at h; exact Outcome.noConfusion h

theorem setNodeHashLoop_cons (loader : NodeID → Outcome (Option SubtreeProto))
    (n : Node) (ns : List Node) (c : CacheState) :
    setNodeHashLoop loader c (n :: ns)
      = (match setNodeHash loader n.nodeID n.hash c with
        | .panic => (.panic, c)
        | .err e => (.err e, c)
        | .ok c' => setNodeHashLoop loader c' ns) := rfl

theorem setNodeHashLoop_append (loader : NodeID → Outcome (Option SubtreeProto)) :
    ∀ (pre rest : List Node) (c c₁ : CacheState),
      setNodeHashLoop loader c pre = (.ok (), c₁) →
      setNodeHashLoop loader c (pre ++ rest) = setNodeHashLoop loader c₁ rest
  | [], rest, c, c₁, h => by
    have hc : c = c₁ := congrArg Prod.snd h
    rw [List.nil_append, hc]
  | n :: pre, rest, c, c₁, h => by
    rw [List.cons_append, setNodeHashLoop_cons loader n (pre ++ rest) c]
    rw [setNodeHashLoop_cons loader n pre c] at h
    cases hs : setNodeHash loader n.nodeID n.hash c with
    | ok c' =>
      rw [hs] at h
      exact setNodeHashLoop_append loader pre rest c' c₁ h
    | err e =>
      rw [hs] at h
      exact Outcome.noConfusion (congrArg Prod.fst h)
    | panic =>
      rw [hs] at h
      exact Outcome.noConfusion (congrArg Prod.fst h)

theorem setNodeHashLoop_recorded (loader : NodeID → Outcome (Option SubtreeProto)) :
    ∀ (ns : List Node) (c c' : CacheState),
      setNodeHashLoop loader c ns = (.ok (), c') →
      c'.recorded = c.recorded ++ ns.map (fun n => (n.nodeID, n.hash))
  | [], c, c', h => by
    have hc : c = c' := congrArg Prod.snd h
    rw [← hc]
    simp
  | n :: ns, c, c', h => by
    rw [setNodeHashLoop_cons loader n ns c] at h
    cases hs : setNodeHash loader n.nodeID n.hash c with
    | ok c₁ =>
      rw [hs] at h
      have h1 := setNodeHash_recorded loader n.nodeID n.hash c c₁ hs
      have h2 := setNodeHashLoop_recorded loader ns c₁ c' h
      rw [h2, h1]
      simp
    | err e =>
      rw [hs] at h
      exact Outcome.noConfusion (congrArg Prod.fst h)
    | panic =>
      rw [hs] at h
      exact Outcome.noConfusion (congrArg Prod.fst h)

/-- C10: SetMerkleNodes is not atomic over its node list: when recording
the hash of node `nf` fails after the nodes of `pre` succeeded, the call
returns that error, yet the transaction state is exactly the state of a
successful SetMerkleNodes of `pre` alone — the earlier hashes stay
recorded in the cache (recorded = prior ++ pre's hashes) and a subsequent
Commit behaves identically to committing after the truncated successful
call, so they are still flushed. -/
theorem c10_failed_set_keeps_prior_recordings (b : Backend) (tx : TreeTX)
    (pre post : List Node) (nf : Node) (e : TSError) (w : Int) (k : STxKind)
    (hopen : tx.stx = some k)
    (hw : (writeRev b tx).1 = .ok w)
    (hpre : (setNodeHashLoop (setMerkleLoader b tx.treeID w) tx.cache pre).1 = .ok ())
    (hfail : setNodeHash (setMerkleLoader b tx.treeID w) nf.nodeID nf.hash
        (setNodeHashLoop (setMerkleLoader b tx.treeID w) tx.cache pre).2 = .err e) :
    SetMerkleNodes b tx (pre ++ nf :: post) = (.err e, (SetMerkleNodes b tx pre).2)
    ∧ (SetMerkleNodes b tx pre).1 = .ok ()
    ∧ Commit (SetMerkleNodes b tx (pre ++ nf :: post)).2
        = Commit (SetMerkleNodes b tx pre).2
    ∧ (SetMerkleNodes b tx (pre ++ nf :: post)).2.cache.recorded
        = tx.cache.recorded ++ pre.map (fun n => (n.nodeID, n.hash)) := by
  have hpre' : setNodeHashLoop (setMerkleLoader b tx.treeID w) tx.cache pre
      = (.ok (), (setNodeHashLoop (setMerkleLoader b tx.treeID w) tx.cache pre).2) := by
    rw [← hpre]
  have hfull : setNodeHashLoop (setMerkleLoader b tx.treeID w) tx.cache (pre ++ nf :: post)
      = (.err e, (setNodeHashLoop (setMerkleLoader b tx.treeID w) tx.cache pre).2) := by
    rw [setNodeHashLoop_append (setMerkleLoader b tx.treeID w) pre (nf :: post)
      tx.cache _ hpre']
    rw [setNodeHashLoop_cons (setMerkleLoader b tx.treeID w) nf post
      (setNodeHashLoop (setMerkleLoader b tx.treeID w) tx.cache pre).2]
    rw [hfail]
  have e1 := SetMerkleNodes_open b tx (pre ++ nf :: post) k hopen w hw
  have e2 := SetMerkleNodes_open b tx pre k hopen w hw
  rw [hfull] at e1
  refine ⟨?_, ?_, ?_, ?_⟩
  · rw [e1, e2]
  · rw [e2]
    exact hpre
  · rw [e1, e2]
  · rw [e1]
    show ((setNodeHashLoop (setMerkleLoader b tx.treeID w) tx.cache pre).2).recorded = _
    exact setNodeHashLoop_recorded (setMerkleLoader b tx.treeID w) pre tx.cache _ hpre'

/-- C10 witness: node n0 records successfully, node n1 (misaligned) fails
the cache miss load: the call errors with the alignment error while n0's
hash stays recorded, and Commit flushes it exactly as after a successful
call on [n0] alone. -/
theorem c10_witness :
    (setNodeHashLoop (setMerkleLoader bW 1 5) (begin 1 .readWrite).cache [n0]).1 = .ok ()
    ∧ SetMerkleNodes bW (begin 1 .readWrite) [n0, n1]
        = (.err (.alignment 4), (SetMerkleNodes bW (begin 1 .readWrite) [n0]).2)
    ∧ (SetMerkleNodes bW (begin 1 .readWrite) [n0, n1]).2.cache.recorded
        = (begin 1 .readWrite).cache.recorded ++ [n0].map (fun n => (n.nodeID, n.hash)) := by
  have h := c10_failed_set_keeps_prior_recordings bW (begin 1 .readWrite) [n0] [] n1
    (.alignment 4) 5 .readWrite rfl rfl (by decide) (by decide)
  exact ⟨by decide, h.1, h.2.2.2⟩

end CloudSpanner
